import Mathlib

/-!
# oath-exec: a shallow embedding of `oath-exec.c`

The development embeds the three functions of `oath-exec.c`
(`read_config`, `generate_random_b32`, `main`) as Lean functions and proves
properties of them.

Modelling conventions

* A C byte is a `Nat` (its unsigned value), a C string is the list of the bytes
  in front of its terminating NUL.
* `char filebuf[1024]`, `char buf[1024]` and `char otp[1024]` are lists of
  1024 bytes; a store `a[i] = c` is `List.set`, a load `a[i]` is `List.getD`.
  A loop that walks an array from index 0 upwards is a recursion over the
  list of the bytes it has still to visit.
* A file descriptor is a `Source`: the list of events the successive `read`
  calls will meet.  `read` may return fewer bytes than are available and never
  more than it was asked for.
* liboath (`oath_base32_decode`, `oath_base32_encode`, `oath_totp_validate`,
  `oath_init`, the `OATH_*` constants) is not part of the repository; it is
  the parameter `Lib` of every function that uses it.
* Loops whose termination is not structural carry a fuel argument and return
  `none` when it runs out; the totality theorems show that the fuel the
  top-level functions pass is always enough.
* `ConfigLine`, `line_bytes`, `file_bytes`, `well_formed_line`, `spec_decimal`,
  `spec_apply` and `spec_config` are not code: they say what the specification
  takes a configuration file to be and to mean, for comparison with
  `read_config`.
-/

namespace OathExec

/-! ## Bytes and C strings -/

/-- Bytes of a string literal. -/
def str (s : String) : List Nat := s.toList.map Char.toNat

/-- The C string that starts at offset `off` of `buf`: the bytes in front of
the first NUL. -/
def cstr (buf : List Nat) (off : Nat) : List Nat :=
  (buf.drop off).takeWhile (fun c => c != 0)

/-- C `tolower` in the C locale. -/
def tolower (c : Nat) : Nat := if 65 ≤ c ∧ c ≤ 90 then c + 32 else c

/-- C `strcasecmp` on two C strings (given without their NUL): the difference
of the first pair of bytes that differ after `tolower`, the end of a string
counting as the byte 0. -/
def strcasecmp : List Nat → List Nat → Int
  | [], [] => 0
  | [], b :: _ => 0 - (tolower b : Int)
  | a :: _, [] => (tolower a : Int)
  | a :: as, b :: bs =>
    if tolower a = tolower b then strcasecmp as bs
    else (tolower a : Int) - (tolower b : Int)

/-- C `isspace` in the C locale. -/
def isspace (c : Nat) : Bool := c == 32 || (9 ≤ c && c ≤ 13)

/-- C `isdigit`. -/
def isdigit (c : Nat) : Bool := 48 ≤ c && c ≤ 57

/-- Result of `strtoul(s, &endptr, 10)`: the value returned, the offset of
`endptr` in `s`, and whether `errno` was set (to `ERANGE`). -/
structure StrtoulOut where
  val : Nat
  endOff : Nat
  errno : Bool
deriving DecidableEq, Repr

/-- C `strtoul(s, &endptr, 10)` with a 64-bit `unsigned long`, as glibc
implements it: leading `isspace` bytes and one optional sign are skipped, the
longest run of digits is converted; with no digit the result is 0, `endptr`
is `s` and `errno` is left alone; a value above `ULONG_MAX` gives `ULONG_MAX`
and `ERANGE`; a minus sign negates the value modulo 2^64. -/
def strtoul (s : List Nat) : StrtoulOut :=
  let ws := (s.takeWhile isspace).length
  let s1 := s.drop ws
  let neg := s1.head? == some 45
  let sgn := if s1.head? == some 45 || s1.head? == some 43 then 1 else 0
  let ds := (s1.drop sgn).takeWhile isdigit
  if ds.length = 0 then { val := 0, endOff := 0, errno := false }
  else
    let v := ds.foldl (fun a d => 10 * a + (d - 48)) 0
    if 2 ^ 64 ≤ v then { val := 2 ^ 64 - 1, endOff := ws + sgn + ds.length, errno := true }
    else { val := if neg then (2 ^ 64 - v) % 2 ^ 64 else v,
           endOff := ws + sgn + ds.length, errno := false }

/-- Conversion of an `unsigned long` to `int` (32 bits, two's complement). -/
def toInt32 (v : Nat) : Int :=
  if v % 2 ^ 32 < 2 ^ 31 then ((v % 2 ^ 32 : Nat) : Int) else ((v % 2 ^ 32 : Nat) : Int) - 2 ^ 32

/-! ## File descriptors -/

/-- What one `read` call can meet: an error, or some bytes that are available
(no byte available: end of file). -/
inductive RdEv where
  | err
  | data (bs : List Nat)
deriving DecidableEq, Repr

/-- A descriptor open for reading: the events its `read` calls will meet. -/
abbrev Source := List RdEv

/-- Result of `read(fd, p, count)`: the return value, the bytes stored at `p`
and the descriptor afterwards. -/
structure ReadOut where
  r : Int
  bytes : List Nat
  src : Source
deriving DecidableEq, Repr

/-- The system call `read(fd, p, count)`.  An exhausted descriptor is at end
of file; a request for 0 bytes returns 0 and consumes nothing; otherwise the
call returns the available bytes, cut to `count`, the rest staying available. -/
def read (src : Source) (count : Nat) : ReadOut :=
  match src with
  | [] => { r := 0, bytes := [], src := [] }
  | RdEv.err :: rest => { r := -1, bytes := [], src := rest }
  | RdEv.data bs :: rest =>
    if count = 0 then { r := 0, bytes := [], src := src }
    else if bs.length ≤ count then { r := bs.length, bytes := bs, src := rest }
    else { r := count, bytes := bs.take count, src := RdEv.data (bs.drop count) :: rest }

/-- Number of bytes a descriptor still holds. -/
def srcBytes : Source → Nat
  | [] => 0
  | RdEv.err :: rest => srcBytes rest
  | RdEv.data bs :: rest => bs.length + srcBytes rest

/-- Store of the bytes `bs` at `buf + pos`. -/
def writeAt (buf : List Nat) (pos : Nat) (bs : List Nat) : List Nat :=
  buf.take pos ++ bs ++ buf.drop (pos + bs.length)

/-- C `memmove(buf + dst, buf + src, n)`. -/
def memmove (buf : List Nat) (dst src n : Nat) : List Nat :=
  buf.take dst ++ (buf.drop src).take n ++ buf.drop (dst + n)

/-! ## liboath -/

/-- The part of liboath the program uses.  `oath_base32_decode` and
`oath_base32_encode` give `none` for a return value other than `OATH_OK` and
the allocated output buffer otherwise. -/
structure Lib where
  OATH_OK : Int
  OATH_INVALID_OTP : Int
  oath_init : Int
  oath_base32_decode : List Nat → Option (List Nat)
  oath_base32_encode : List Nat → Option (List Nat)
  oath_totp_validate : (secret : List Nat) → (secret_length : Nat) → (now : Int) →
    (time_step_size : Nat) → (start_offset : Int) → (window : Nat) → (otp : List Nat) → Int

/-! ## `read_config` -/

/-- `OATH_TYPE_TOTP = 1`. -/
def OATH_TYPE_TOTP : Int := 1

/-- `struct oath_config`; `secret = none` is the NULL pointer, `some bs` a heap
buffer holding `bs`. -/
structure oath_config where
  type : Int
  secret : Option (List Nat)
  secret_length : Nat
  digits : Int
deriving DecidableEq, Repr

/-- The `oath_config config = { 0 }` of `main`. -/
def config_zero : oath_config := { type := 0, secret := none, secret_length := 0, digits := 0 }

/-- Diagnostics written to standard error. -/
inductive Diag where
  | cant_open_config
  | error_reading_config
  | unsupported_otp_type (value : List Nat)
  | cant_decode_secret
  | cant_parse_number (value : List Nat)
  | unknown_config_item (key : List Nat)
  | no_secret_defined
  | maximum_length_exceeded
  | cant_open_random
  | cant_read_random
  | eof_on_random
  | cant_encode_secret
  | cant_init_library
  | usage
  | cant_allocate_argv
  | cant_execute
deriving DecidableEq, Repr

/-- Outcome of the `for (i = 0; i < pos; i++)` loop of `read_config`: either it
ran to `i = pos`, or it reached the `'#'`/`'\n'` branch at index `i` (shown
after the `filebuf[i] = '\0'` of that branch).  `head` is `filebuf[0..pos)`
as the loop leaves it. -/
inductive ScanOut where
  | notFound (head : List Nat)
  | found (head : List Nat) (i : Nat) (value : Option Nat) (comment : Bool)
deriving DecidableEq, Repr

/-- The `for (i = 0; i < pos; i++)` loop at index `i`.  `todo` is
`filebuf[i..pos)`, so that its first byte is `filebuf[i]`; `done` is
`filebuf[0..i)` in reverse order, with the bytes the loop has stored;
`value` is the offset of the pointer `value` in `filebuf` (`none` for NULL).
The bytes from `filebuf[pos]` on are not touched by the loop. -/
def scan : (todo : List Nat) → (i : Nat) → (done : List Nat) → (value : Option Nat) →
    (comment : Bool) → ScanOut
  | [], _, done, _, _ => ScanOut.notFound done.reverse
  | c :: todo, i, done, value, comment =>
    if comment && c != 10 then scan todo (i + 1) (c :: done) value comment
    else if c == 32 || c == 9 || c == 13 then
      scan todo (i + 1) ((if value.isNone then 0 else c) :: done)
        (if value == some i then some (i + 1) else value) comment
    else if c == 61 && value.isNone then
      scan todo (i + 1) (0 :: done) (some (i + 1)) comment
    else if c == 35 || c == 10 then
      ScanOut.found (done.reverse ++ 0 :: todo) i value
        (if c == 35 then true else if comment then false else comment)
    else scan todo (i + 1) (c :: done) value comment

/-- Lines 103-129: the interpretation of one `key = value` item, run when
`value` is not NULL.  `Except.error` is a `goto out2`. -/
def interpret (lib : Lib) (filebuf : List Nat) (value : Option Nat) (config : oath_config) :
    Except (oath_config × Diag) oath_config :=
  match value with
  | none => Except.ok config
  | some v =>
    let key := cstr filebuf 0
    let val := cstr filebuf v
    if strcasecmp key (str "type") = 0 then
      if strcasecmp val (str "TOTP") = 0 then Except.ok { config with type := OATH_TYPE_TOTP }
      else Except.error (config, Diag.unsupported_otp_type val)
    else if strcasecmp key (str "secret") = 0 then
      match lib.oath_base32_decode val with
      | some bs => Except.ok { config with secret := some bs, secret_length := bs.length }
      | none => Except.error (config, Diag.cant_decode_secret)
    else if strcasecmp key (str "digits") = 0 then
      let o := strtoul val
      let config1 := { config with digits := toInt32 o.val }
      if o.errno || val.getD o.endOff 0 != 0 then
        Except.error (config1, Diag.cant_parse_number val)
      else Except.ok config1
    else Except.error (config, Diag.unknown_config_item key)

/-- The variables of `read_config` that live across loop iterations. -/
structure PState where
  filebuf : List Nat
  pos : Nat
  comment : Bool
  config : oath_config
deriving DecidableEq, Repr

/-- Outcome of the inner `do ... while (found)` loop. -/
inductive LinesOut where
  | done (st : PState)
  | out2 (config : oath_config) (d : Diag)
deriving DecidableEq, Repr

/-- The inner `do ... while (found)` loop of `read_config`. -/
def scan_lines (lib : Lib) : (fuel : Nat) → PState → Option LinesOut
  | 0, _ => none
  | fuel + 1, st =>
    match scan (st.filebuf.take st.pos) 0 [] none st.comment with
    | ScanOut.notFound head =>
      some (LinesOut.done { st with filebuf := head ++ st.filebuf.drop st.pos })
    | ScanOut.found head i value comment =>
      let filebuf := head ++ st.filebuf.drop st.pos
      match interpret lib filebuf value st.config with
      | Except.error (config, d) => some (LinesOut.out2 config d)
      | Except.ok config =>
        scan_lines lib fuel
          { filebuf := memmove filebuf 0 (i + 1) (st.pos - (i + 1)),
            pos := st.pos - (i + 1), comment := comment, config := config }

/-- Result of `read_config`: the return value, `*config` afterwards, and what
was written to standard error. -/
structure RCOut where
  ret : Int
  config : oath_config
  stderr : List Diag
deriving DecidableEq, Repr

/-- The outer `do ... while (r > 0)` loop of `read_config`, followed by the
check of lines 141-146. -/
def read_loop (lib : Lib) : (fuel : Nat) → Source → PState → Option RCOut
  | 0, _, _ => none
  | fuel + 1, fd, st =>
    let o := read fd (1024 - (st.pos + 1))
    if o.r < 0 then
      some { ret := 0, config := st.config, stderr := [Diag.error_reading_config] }
    else
      let filebuf := if o.r = 0 then st.filebuf.set st.pos 10
                     else writeAt st.filebuf st.pos o.bytes
      let pos := st.pos + o.r.toNat
      match scan_lines lib (pos + 1) { st with filebuf := filebuf, pos := pos } with
      | none => none
      | some (LinesOut.out2 config d) => some { ret := 0, config := config, stderr := [d] }
      | some (LinesOut.done st1) =>
        if o.r > 0 then read_loop lib fuel o.src st1
        else if st1.config.secret.isNone || st1.config.secret_length == 0 then
          some { ret := 0, config := st1.config, stderr := [Diag.no_secret_defined] }
        else some { ret := 1, config := st1.config, stderr := [] }

/-- The function `read_config(filename, config)`.  `file` is what
`open(filename, O_RDONLY)` gives: `none` when it fails. -/
def read_config (lib : Lib) (file : Option Source) (config : oath_config) : Option RCOut :=
  match file with
  | none => some { ret := 0, config := config, stderr := [Diag.cant_open_config] }
  | some fd =>
    read_loop lib (srcBytes fd + 1) fd
      { filebuf := List.replicate 1024 0, pos := 0, comment := false,
        config := { config with digits := 6 } }

/-! ## `generate_random_b32` -/

/-- `EXIT_SUCCESS`. -/
def EXIT_SUCCESS : Int := 0

/-- `EXIT_FAILURE`. -/
def EXIT_FAILURE : Int := 1

/-- Outcome of the `do ... while (pos < len)` loop of `generate_random_b32`:
a `goto out1` with its diagnostic, or the loop's normal end; in both cases
with `pos` and the descriptor as they are then. -/
inductive RandOut where
  | out1 (d : Diag) (pos : Nat) (fd : Source)
  | done (buf : List Nat) (pos : Nat) (fd : Source)
deriving DecidableEq, Repr

/-- The `do ... while (pos < len)` loop of `generate_random_b32`. -/
def random_loop : (fuel : Nat) → Source → (buf : List Nat) → (pos len : Nat) → Option RandOut
  | 0, _, _, _, _ => none
  | fuel + 1, fd, buf, pos, len =>
    let o := read fd (len - pos)
    if o.r < 0 then some (RandOut.out1 Diag.cant_read_random pos o.src)
    else if o.r = 0 then some (RandOut.out1 Diag.eof_on_random pos o.src)
    else
      let buf1 := writeAt buf pos o.bytes
      let pos1 := pos + o.r.toNat
      if pos1 < len then random_loop fuel o.src buf1 pos1 len
      else some (RandOut.done buf1 pos1 o.src)

/-- Result of `generate_random_b32`: the return value, the lines written to
standard output and the diagnostics, the number of bytes read from
`/dev/random`, and the argument of the call of `oath_base32_encode`, if one
was made. -/
structure GenOut where
  ret : Int
  stdout : List (List Nat)
  stderr : List Diag
  nread : Nat
  encoded : Option (List Nat)
deriving DecidableEq, Repr

/-- The function `generate_random_b32(len)`.  `random` is what
`open("/dev/random", O_RDONLY)` gives.  The comparison `len > sizeof(buf)` is
made in `size_t` (64 bits), which is where a negative `len` becomes large. -/
def generate_random_b32 (lib : Lib) (random : Option Source) (len : Int) : Option GenOut :=
  if len % 2 ^ 64 > 1024 then
    some { ret := EXIT_FAILURE, stdout := [], stderr := [Diag.maximum_length_exceeded],
           nread := 0, encoded := none }
  else
    match random with
    | none =>
      some { ret := EXIT_FAILURE, stdout := [], stderr := [Diag.cant_open_random],
             nread := 0, encoded := none }
    | some fd =>
      match random_loop (len.toNat + 1) fd (List.replicate 1024 0) 0 len.toNat with
      | none => none
      | some (RandOut.out1 d pos _) =>
        some { ret := EXIT_FAILURE, stdout := [], stderr := [d], nread := pos, encoded := none }
      | some (RandOut.done buf pos _) =>
        match lib.oath_base32_encode (buf.take len.toNat) with
        | none =>
          some { ret := EXIT_FAILURE, stdout := [], stderr := [Diag.cant_encode_secret],
                 nread := pos, encoded := some (buf.take len.toNat) }
        | some b32 =>
          some { ret := EXIT_SUCCESS, stdout := [b32 ++ [10]], stderr := [],
                 nread := pos, encoded := some (buf.take len.toNat) }

/-! ## `main` -/

/-- What `main` meets outside the program text. -/
structure Env where
  /-- The successive results of `getopt(argc, argv, "c:g:")` before it returns
  -1: the option character and `optarg`. -/
  opts : List (Nat × List Nat)
  /-- The arguments `argv[optind], ..., argv[argc - 1]`. -/
  args : List (List Nat)
  /-- The call `open(path, O_RDONLY)`. -/
  open_ : List Nat → Option Source
  /-- Standard input. -/
  stdin : Source
  /-- The value of `time(NULL)`. -/
  now : Int
  /-- Whether `malloc` of the new argument vector succeeds. -/
  malloc_ok : Bool
  /-- Whether `execvp` replaces the process image. -/
  execvp_ok : Bool

/-- What a run of `main` leaves behind.  `status` is the exit status, `none`
when `execvp` replaced the process; `execs` lists the argument vectors of the
`execvp` calls; `validated` lists the OTP strings given to
`oath_totp_validate`; `secret_mem` is the content of the buffer `config.secret`
points to (when not NULL) and `otp_mem` the content of `otp[1024]`, both at
the moment the process exits or calls `execvp` (for a buffer that was freed:
at the moment of `free`). -/
structure MainOut where
  status : Option Int
  execs : List (List (List Nat))
  validated : List (List Nat)
  stdout : List (List Nat)
  stderr : List Diag
  secret_mem : Option (List Nat)
  otp_mem : List Nat
deriving DecidableEq, Repr

/-- The loop `for (i = 0; i < r; i++)` of `main` that cuts `otp` at the first
CR or LF, at index `i`: `todo` is `otp[i..r)` and `done` is `otp[0..i)` in
reverse order.  The result is `otp[0..r)` after the loop. -/
def cut_otp : (todo : List Nat) → (done : List Nat) → List Nat
  | [], done => done.reverse
  | c :: todo, done =>
    if c == 13 || c == 10 then done.reverse ++ 0 :: todo
    else cut_otp todo (c :: done)

/-- C `memset(p, 0, n)` on the buffer `p`. -/
def memset0 (p : List Nat) (n : Nat) : List Nat :=
  List.replicate (min n p.length) 0 ++ p.drop n

/-- An `exit(EXIT_FAILURE)` after `syntax(argv[0])`. -/
def usage_exit : MainOut :=
  { status := some EXIT_FAILURE, execs := [], validated := [], stdout := [],
    stderr := [Diag.usage], secret_mem := none, otp_mem := List.replicate 1024 0 }

/-- Lines 255-309 of `main`: what it does once the options are parsed and
`configfile` is set (Gate mode). -/
def gate (lib : Lib) (env : Env) (configfile : List Nat) : Option MainOut :=
  match read_config lib (env.open_ configfile) config_zero with
  | none => none
  | some rc =>
    if rc.ret = 0 then
      some { status := some EXIT_FAILURE, execs := [], validated := [], stdout := [],
             stderr := rc.stderr, secret_mem := rc.config.secret,
             otp_mem := List.replicate 1024 0 }
    else
      let config := rc.config
      let prompt := (if config.type = OATH_TYPE_TOTP then 84 else 72) :: str "OTP: "
      let o := read env.stdin (1024 - 1)
      if o.r ≤ 0 then
        some { status := some EXIT_FAILURE, execs := [], validated := [], stdout := [prompt],
               stderr := [], secret_mem := config.secret, otp_mem := List.replicate 1024 0 }
      else
        let otp0 := writeAt (List.replicate 1024 0) 0 o.bytes
        let otp := cut_otp (otp0.take o.r.toNat) [] ++ otp0.drop o.r.toNat
        let secret := config.secret.getD []
        let totp := config.type = OATH_TYPE_TOTP
        let valid := if totp then
            lib.oath_totp_validate secret config.secret_length env.now 30 0 2 (cstr otp 0)
          else lib.OATH_INVALID_OTP
        let validated := if totp then [cstr otp 0] else []
        let otp1 := memset0 otp 1024
        let secret_mem := config.secret.map (fun p => memset0 p config.secret_length)
        if valid ≥ 0 && valid != lib.OATH_INVALID_OTP then
          if !env.malloc_ok then
            some { status := some EXIT_FAILURE, execs := [], validated := validated,
                   stdout := [prompt], stderr := [Diag.cant_allocate_argv],
                   secret_mem := secret_mem, otp_mem := otp1 }
          else if env.execvp_ok then
            some { status := none, execs := [env.args], validated := validated,
                   stdout := [prompt], stderr := [], secret_mem := secret_mem, otp_mem := otp1 }
          else
            some { status := some EXIT_FAILURE, execs := [env.args], validated := validated,
                   stdout := [prompt], stderr := [Diag.cant_execute],
                   secret_mem := secret_mem, otp_mem := otp1 }
        else
          some { status := some EXIT_FAILURE, execs := [], validated := validated,
                 stdout := [prompt], stderr := [], secret_mem := secret_mem, otp_mem := otp1 }

/-- The `while ((opt = getopt(...)) != -1)` loop of `main` over the remaining
`getopt` results, followed by the rest of `main`. -/
def main_opts (lib : Lib) (env : Env) : List (Nat × List Nat) → Option (List Nat) →
    Option MainOut
  | [], none => some usage_exit
  | [], some path => if env.args.length = 0 then some usage_exit else gate lib env path
  | (opt, optarg) :: rest, _ =>
    if opt = 99 then main_opts lib env rest (some optarg)
    else if opt = 103 then
      let o := strtoul optarg
      if o.errno || optarg.getD o.endOff 0 != 0 then some usage_exit
      else
        match generate_random_b32 lib (env.open_ (str "/dev/random")) (toInt32 o.val) with
        | none => none
        | some g =>
          some { status := some g.ret, execs := [], validated := [], stdout := g.stdout,
                 stderr := g.stderr, secret_mem := none, otp_mem := List.replicate 1024 0 }
    else some usage_exit

/-- The function `main`. -/
def main (lib : Lib) (env : Env) : Option MainOut :=
  if lib.oath_init ≠ lib.OATH_OK then
    some { status := some EXIT_FAILURE, execs := [], validated := [], stdout := [],
           stderr := [Diag.cant_init_library], secret_mem := none,
           otp_mem := List.replicate 1024 0 }
  else main_opts lib env env.opts none

/-! ## A concrete liboath for examples -/

/-- The base32 alphabet of RFC 4648. -/
def b32_alphabet : List Nat := str "ABCDEFGHIJKLMNOPQRSTUVWXYZ234567"

/-- The `w` low bits of `n`, most significant first. -/
def to_bits : (w : Nat) → (n : Nat) → List Bool
  | 0, _ => []
  | w + 1, n => (n / 2 ^ w % 2 == 1) :: to_bits w n

/-- The number a list of bits (most significant first) denotes. -/
def of_bits (bs : List Bool) : Nat := bs.foldl (fun a b => 2 * a + (if b then 1 else 0)) 0

/-- Consecutive groups of `k + 1` elements, the last one filled up with `d`. -/
def groups_of {α : Type} (k : Nat) (d : α) : (fuel : Nat) → List α → List (List α)
  | 0, _ => []
  | fuel + 1, xs =>
    if xs.length = 0 then []
    else (xs.take (k + 1) ++ List.replicate (k + 1 - xs.length) d) ::
      groups_of k d fuel (xs.drop (k + 1))

/-- RFC 4648 base32 encoding with padding. -/
def base32_encode (bs : List Nat) : List Nat :=
  let bits := bs.flatMap (to_bits 8)
  let cs := (groups_of 4 false bits.length bits).map (fun g => b32_alphabet.getD (of_bits g) 0)
  cs ++ List.replicate ((8 - cs.length % 8) % 8) 61

/-- Value of a base32 digit, in either letter case. -/
def b32_value (c : Nat) : Option Nat :=
  if 65 ≤ c ∧ c ≤ 90 then some (c - 65)
  else if 97 ≤ c ∧ c ≤ 122 then some (c - 97)
  else if 50 ≤ c ∧ c ≤ 55 then some (c - 24)
  else none

/-- RFC 4648 base32 decoding, the way `oath_base32_decode` applies it: blanks
are dropped, letters may be lower case, the padding may be missing. -/
def base32_decode (cs : List Nat) : Option (List Nat) :=
  let ds := (cs.filter (fun c => c != 32)).reverse.dropWhile (fun c => c == 61) |>.reverse
  if ds.all (fun c => (b32_value c).isSome) && ds.length % 8 != 1 && ds.length % 8 != 3
      && ds.length % 8 != 6 then
    let bits := ds.flatMap (fun c => to_bits 5 ((b32_value c).getD 0))
    some (((groups_of 7 false bits.length bits).take (bits.length / 8)).map of_bits)
  else none

/-- A liboath for examples: the base32 codec of RFC 4648, and a validator that
knows one secret and the code that is valid for it now. -/
def demo_lib : Lib where
  OATH_OK := 0
  OATH_INVALID_OTP := -6
  oath_init := 0
  oath_base32_decode := base32_decode
  oath_base32_encode := fun bs => some (base32_encode bs)
  oath_totp_validate := fun secret _ _ _ _ _ otp =>
    if secret = [72, 101, 108, 108, 111, 33, 222, 173, 190, 239] ∧ otp = str "287082" then 1
    else -6

/-- The example configuration file of the specification. -/
def example_config : List Nat :=
  str "# my TOTP token\ntype = TOTP\nsecret = JBSWY3DPEHPK3PXP\ndigits = 6\n"

/-- A configuration with a secret line only. -/
def secret_line : List Nat := str "secret = JBSWY3DPEHPK3PXP\n"

/-- The bytes `JBSWY3DPEHPK3PXP` decode to. -/
def example_secret : List Nat := [72, 101, 108, 108, 111, 33, 222, 173, 190, 239]

/-- A Gate-mode environment: `prog -c cfg -- /bin/echo ok`, where the file
`cfg` has the content `config` (delivered by one `read`) and standard input
is `stdin`. -/
def demo_env (config : List Nat) (stdin : Source) : Env where
  opts := [(99, str "cfg")]
  args := [str "/bin/echo", str "ok"]
  open_ := fun path => if path = str "cfg" then some [RdEv.data config] else none
  stdin := stdin
  now := 59
  malloc_ok := true
  execvp_ok := true

/-- A line of a configuration file as the specification describes it: an empty
line, a `'#'` comment, or `key = value` with the key at the start of the line
and optional whitespace `ws1`, `ws2` on both sides of the `'='`. -/
inductive ConfigLine where
  | blank
  | comment (text : List Nat)
  | item (key ws1 ws2 value : List Nat)
deriving DecidableEq, Repr

/-- The bytes of a line of the specification, with its terminating `'\n'`. -/
def line_bytes : ConfigLine → List Nat
  | ConfigLine.blank => [10]
  | ConfigLine.comment text => 35 :: (text ++ [10])
  | ConfigLine.item key ws1 ws2 value => key ++ (ws1 ++ 61 :: (ws2 ++ (value ++ [10])))

/-- The bytes of a file made of the given lines. -/
def file_bytes : List ConfigLine → List Nat
  | [] => []
  | l :: ls => line_bytes l ++ file_bytes ls

/-- The number a string of decimal digits denotes. -/
def spec_decimal (ds : List Nat) : Nat := ds.foldl (fun a d => 10 * a + (d - 48)) 0

/-- The well-formed lines of the specification: a comment holds no `'\n'`; in
`key = value` the whitespace is blanks, tabs and CRs, the value holds no
whitespace, no `'#'`, no `'\n'` and no NUL, and the line is a `type` line with
the value TOTP, a `secret` line with a value the base32 decoder accepts, or a
`digits` line with a decimal number below 2^31 (keys and TOTP in any letter
case). -/
def well_formed_line (lib : Lib) : ConfigLine → Prop
  | ConfigLine.blank => True
  | ConfigLine.comment text => ∀ c ∈ text, c ≠ 10
  | ConfigLine.item key ws1 ws2 value =>
    (∀ c ∈ ws1, c = 32 ∨ c = 9 ∨ c = 13) ∧ (∀ c ∈ ws2, c = 32 ∨ c = 9 ∨ c = 13) ∧
    (∀ c ∈ value, c ≠ 0 ∧ c ≠ 10 ∧ c ≠ 32 ∧ c ≠ 9 ∧ c ≠ 13 ∧ c ≠ 35) ∧
    ((key.map tolower = str "type" ∧ value.map tolower = str "totp") ∨
     (key.map tolower = str "secret" ∧ (lib.oath_base32_decode value).isSome = true) ∨
     (key.map tolower = str "digits" ∧ value ≠ [] ∧ (∀ c ∈ value, isdigit c = true) ∧
       spec_decimal value < 2 ^ 31))

/-- What a line of the specification does to the configuration. -/
def spec_apply (lib : Lib) (c : oath_config) : ConfigLine → oath_config
  | ConfigLine.item key _ _ value =>
    if key.map tolower = str "type" then { c with type := OATH_TYPE_TOTP }
    else if key.map tolower = str "secret" then
      match lib.oath_base32_decode value with
      | some bs => { c with secret := some bs, secret_length := bs.length }
      | none => c
    else if key.map tolower = str "digits" then { c with digits := (spec_decimal value : Int) }
    else c
  | _ => c

/-- The configuration the specification assigns to a file: `digits` is 6 and the
other fields are as `main` zeroed them, unless a line sets them; of several
lines with one key the last counts. -/
def spec_config (lib : Lib) (lines : List ConfigLine) : oath_config :=
  lines.foldl (spec_apply lib) { config_zero with digits := 6 }

/-- Well-formedness of a line can be computed, given the decoder. -/
instance well_formed_line_decidable (lib : Lib) : (l : ConfigLine) →
    Decidable (well_formed_line lib l)
  | ConfigLine.blank => isTrue trivial
  | ConfigLine.comment text => inferInstanceAs (Decidable (∀ c ∈ text, c ≠ 10))
  | ConfigLine.item key ws1 ws2 value =>
    inferInstanceAs (Decidable (
      (∀ c ∈ ws1, c = 32 ∨ c = 9 ∨ c = 13) ∧ (∀ c ∈ ws2, c = 32 ∨ c = 9 ∨ c = 13) ∧
      (∀ c ∈ value, c ≠ 0 ∧ c ≠ 10 ∧ c ≠ 32 ∧ c ≠ 9 ∧ c ≠ 13 ∧ c ≠ 35) ∧
      ((key.map tolower = str "type" ∧ value.map tolower = str "totp") ∨
       (key.map tolower = str "secret" ∧ (lib.oath_base32_decode value).isSome = true) ∨
       (key.map tolower = str "digits" ∧ value ≠ [] ∧ (∀ c ∈ value, isdigit c = true) ∧
         spec_decimal value < 2 ^ 31))))

/-- The example configuration file of the specification, line by line. -/
def example_lines : List ConfigLine :=
  [ConfigLine.comment (str " my TOTP token"),
   ConfigLine.item (str "type") [32] [32] (str "TOTP"),
   ConfigLine.item (str "secret") [32] [32] (str "JBSWY3DPEHPK3PXP"),
   ConfigLine.item (str "digits") [32] [32] (str "6")]

/-! ## Termination -/

/-- The scan stops inside the bytes it was given and keeps their number. -/
theorem scan_found_bound (todo : List Nat) : ∀ (i : Nat) (done : List Nat) (value : Option Nat)
    (comment : Bool) (head : List Nat) (j : Nat) (v : Option Nat) (c : Bool),
    scan todo i done value comment = ScanOut.found head j v c →
      i ≤ j ∧ j < i + todo.length ∧ head.length = done.length + todo.length := by
  induction todo with
  | nil => intro i done value comment head j v c h; simp [scan] at h
  | cons a todo ih =>
    intro i done value comment head j v c h
    unfold scan at h
    split_ifs at h
    all_goals first
      | (have hb := ih _ _ _ _ _ _ _ _ h
         simp only [List.length_cons] at hb ⊢
         omega)
      | (simp only [ScanOut.found.injEq] at h
         obtain ⟨h1, h2, -, -⟩ := h
         subst h1 h2
         refine ⟨le_refl _, ?_, ?_⟩ <;> simp)

/-- The inner loop ends when its fuel exceeds `pos`: every line found shortens the buffer. -/
theorem scan_lines_total (lib : Lib) : ∀ (fuel : Nat) (st : PState), st.pos < fuel →
    ∃ out, scan_lines lib fuel st = some out := by
  intro fuel
  induction fuel with
  | zero => intro st h; omega
  | succ fuel ih =>
    intro st h
    unfold scan_lines
    cases hs : scan (st.filebuf.take st.pos) 0 [] none st.comment with
    | notFound head => exact ⟨_, rfl⟩
    | found head i value comment =>
      simp only
      cases hi : interpret lib (head ++ st.filebuf.drop st.pos) value st.config with
      | error e => obtain ⟨cfg, d⟩ := e; exact ⟨_, rfl⟩
      | ok cfg =>
        simp only
        apply ih
        have := scan_found_bound _ _ _ _ _ _ _ _ _ hs
        simp only [List.length_take] at this
        simp only
        omega

/-- A `read` returns at most `count`. -/
theorem read_r_le (src : Source) (count : Nat) : (read src count).r ≤ count := by
  unfold read
  split
  · simp
  · simp; omega
  · split_ifs <;> simp_all

/-- A `read` that returns `r > 0` takes `r` bytes off the descriptor. -/
theorem read_consumes (src : Source) (count : Nat) (h : 0 < (read src count).r) :
    srcBytes (read src count).src + (read src count).r.toNat = srcBytes src := by
  unfold read at h ⊢
  split at h
  · simp at h
  · simp at h
  · split_ifs at h ⊢
    · simp at h
    · simp [srcBytes]; omega
    · simp [srcBytes]; omega

/-- A `read` that does not fail stores as many bytes as it returns. -/
theorem read_bytes_length (src : Source) (count : Nat) (h : 0 ≤ (read src count).r) :
    (read src count).bytes.length = (read src count).r.toNat := by
  unfold read at h ⊢
  split at h
  · simp
  · simp at h
  · split_ifs at h ⊢
    · simp
    · simp
    · simp; omega

/-- The inner loop does not run out of fuel when the fuel exceeds `pos`. -/
theorem scan_lines_ne_none (lib : Lib) (fuel : Nat) (st : PState) (h : st.pos < fuel) :
    scan_lines lib fuel st ≠ none := by
  obtain ⟨out, hout⟩ := scan_lines_total lib fuel st h
  rw [hout]; exact Option.some_ne_none _

/-- The outer loop ends when its fuel exceeds the bytes of the descriptor. -/
theorem read_loop_total (lib : Lib) : ∀ (fuel : Nat) (fd : Source) (st : PState),
    srcBytes fd < fuel → ∃ out, read_loop lib fuel fd st = some out := by
  intro fuel
  induction fuel with
  | zero => intro fd st h; omega
  | succ fuel ih =>
    intro fd st h
    unfold read_loop
    simp only
    by_cases hr : (read fd (1024 - (st.pos + 1))).r < 0
    · rw [if_pos hr]; exact ⟨_, rfl⟩
    · rw [if_neg hr]
      split
      · next heq => exact absurd heq (scan_lines_ne_none lib _ _ (Nat.lt_succ_self _))
      · exact ⟨_, rfl⟩
      · split_ifs with h1 h2
        · apply ih
          have := read_consumes fd (1024 - (st.pos + 1)) h1
          have : 0 < (read fd (1024 - (st.pos + 1))).r.toNat := by omega
          omega
        · exact ⟨_, rfl⟩
        · exact ⟨_, rfl⟩

/-- The function `read_config` returns on every input. -/
theorem read_config_total (lib : Lib) (file : Option Source) (config : oath_config) :
    ∃ out, read_config lib file config = some out := by
  unfold read_config
  cases file with
  | none => exact ⟨_, rfl⟩
  | some fd => exact read_loop_total lib _ fd _ (Nat.lt_succ_self _)

/-- The loop of `generate_random_b32` ends when its fuel exceeds `len - pos`. -/
theorem random_loop_total : ∀ (fuel : Nat) (fd : Source) (buf : List Nat) (pos len : Nat),
    len - pos < fuel → ∃ out, random_loop fuel fd buf pos len = some out := by
  intro fuel
  induction fuel with
  | zero => intro fd buf pos len h; omega
  | succ fuel ih =>
    intro fd buf pos len h
    unfold random_loop
    simp only
    split_ifs with h1 h2 h3
    · exact ⟨_, rfl⟩
    · exact ⟨_, rfl⟩
    · apply ih
      have : 0 < (read fd (len - pos)).r.toNat := by omega
      omega
    · exact ⟨_, rfl⟩

/-- The function `generate_random_b32` returns on every input. -/
theorem generate_random_b32_total (lib : Lib) (random : Option Source) (len : Int) :
    ∃ out, generate_random_b32 lib random len = some out := by
  unfold generate_random_b32
  split_ifs with h
  · exact ⟨_, rfl⟩
  · cases random with
    | none => exact ⟨_, rfl⟩
    | some fd =>
      simp only
      obtain ⟨out, hout⟩ := random_loop_total (len.toNat + 1) fd (List.replicate 1024 0) 0
        len.toNat (by omega)
      rw [hout]
      cases out with
      | out1 d pos fd1 => exact ⟨_, rfl⟩
      | done buf pos fd1 =>
        simp only
        cases lib.oath_base32_encode (List.take len.toNat buf) <;> exact ⟨_, rfl⟩

/-- Gate mode ends on every input. -/
theorem gate_total (lib : Lib) (env : Env) (path : List Nat) :
    ∃ out, gate lib env path = some out := by
  unfold gate
  obtain ⟨rc, hrc⟩ := read_config_total lib (env.open_ path) config_zero
  rw [hrc]
  simp only
  split_ifs <;> exact ⟨_, rfl⟩

/-- The option loop and what follows it end on every input. -/
theorem main_opts_total (lib : Lib) (env : Env) : ∀ (opts : List (Nat × List Nat))
    (configfile : Option (List Nat)), ∃ out, main_opts lib env opts configfile = some out := by
  intro opts
  induction opts with
  | nil =>
    intro configfile
    cases configfile with
    | none => exact ⟨_, rfl⟩
    | some path =>
      unfold main_opts
      split_ifs
      · exact ⟨_, rfl⟩
      · exact gate_total lib env path
  | cons o rest ih =>
    intro configfile
    obtain ⟨opt, optarg⟩ := o
    unfold main_opts
    simp only
    split_ifs
    · exact ih _
    · exact ⟨_, rfl⟩
    · obtain ⟨g, hg⟩ := generate_random_b32_total lib (env.open_ (str "/dev/random"))
        (toInt32 (strtoul optarg).val)
      rw [hg]
      exact ⟨_, rfl⟩
    · exact ⟨_, rfl⟩

/-- The function `main` ends on every input. -/
theorem main_total (lib : Lib) (env : Env) : ∃ out, main lib env = some out := by
  unfold main
  split_ifs
  · exact ⟨_, rfl⟩
  · exact main_opts_total lib env _ _

/-! ## Gate mode -/

/-- A `read` of `count > 0` bytes that meets a chunk no longer than `count` returns the chunk. -/
theorem read_chunk_whole (c : List Nat) (rest : Source) (count : Nat) (h0 : 0 < count)
    (h : c.length ≤ count) :
    read (RdEv.data c :: rest) count = { r := c.length, bytes := c, src := rest } := by
  unfold read
  simp only
  rw [if_neg (by omega), if_pos h]

/-- In a comment the scan passes every byte other than `'\n'`. -/
theorem scan_comment_bytes : ∀ (xs todo : List Nat) (i : Nat) (done : List Nat)
    (value : Option Nat), (∀ c ∈ xs, c ≠ 10) →
    scan (xs ++ todo) i done value true = scan todo (i + xs.length) (xs.reverse ++ done) value true
  | [], todo, i, done, value, _ => by simp
  | c :: xs, todo, i, done, value, h => by
    have hc : c ≠ 10 := h c (List.mem_cons_self _ _)
    rw [List.cons_append, scan]
    simp only [Bool.true_and, bne_iff_ne, ne_eq, hc, not_false_eq_true, if_true]
    rw [scan_comment_bytes xs todo (i + 1) (c :: done) value
      (fun x hx => h x (List.mem_cons_of_mem _ hx))]
    simp only [List.length_cons, List.reverse_cons, List.append_assoc, List.singleton_append]
    congr 1
    omega

/-- The bytes of a key are passed unchanged. -/
theorem scan_key_bytes : ∀ (xs todo : List Nat) (i : Nat) (done : List Nat),
    (∀ c ∈ xs, c ≠ 32 ∧ c ≠ 9 ∧ c ≠ 13 ∧ c ≠ 61 ∧ c ≠ 35 ∧ c ≠ 10) →
    scan (xs ++ todo) i done none false = scan todo (i + xs.length) (xs.reverse ++ done) none false
  | [], todo, i, done, _ => by simp
  | c :: xs, todo, i, done, h => by
    obtain ⟨h1, h2, h3, h4, h5, h6⟩ := h c (List.mem_cons_self _ _)
    have hb1 : (c == 32 || c == 9 || c == 13) = false := by simp [h1, h2, h3]
    have hb2 : (c == 61) = false := by simp [h4]
    have hb3 : (c == 35 || c == 10) = false := by simp [h5, h6]
    rw [List.cons_append, scan]
    simp only [Bool.false_and, Bool.false_eq_true, if_false, hb1, hb2, hb3]
    rw [scan_key_bytes xs todo (i + 1) (c :: done) (fun x hx => h x (List.mem_cons_of_mem _ hx))]
    simp only [List.length_cons, List.reverse_cons, List.append_assoc, List.singleton_append]
    congr 1
    omega

/-- Whitespace in front of `'='` is overwritten with NUL. -/
theorem scan_ws_before : ∀ (xs todo : List Nat) (i : Nat) (done : List Nat),
    (∀ c ∈ xs, c = 32 ∨ c = 9 ∨ c = 13) →
    scan (xs ++ todo) i done none false
      = scan todo (i + xs.length) (List.replicate xs.length 0 ++ done) none false
  | [], todo, i, done, _ => by simp
  | c :: xs, todo, i, done, h => by
    have hc : (c == 32 || c == 9 || c == 13) = true := by
      rcases h c (List.mem_cons_self _ _) with h1 | h1 | h1 <;> subst h1 <;> rfl
    rw [List.cons_append, scan]
    simp only [Bool.false_and, Bool.false_eq_true, if_false, hc, if_true, Option.isNone_none]
    have hv : (if (none : Option Nat) == some i then some (i + 1) else none) = none := by
      simp
    rw [hv, scan_ws_before xs todo (i + 1) (0 :: done)
      (fun x hx => h x (List.mem_cons_of_mem _ hx))]
    simp only [List.length_cons, List.replicate_succ', List.append_assoc, List.singleton_append]
    congr 1
    omega

/-- Whitespace that directly follows `'='` is passed, and `value` moves with it. -/
theorem scan_ws_after : ∀ (xs todo : List Nat) (i : Nat) (done : List Nat),
    (∀ c ∈ xs, c = 32 ∨ c = 9 ∨ c = 13) →
    scan (xs ++ todo) i done (some i) false
      = scan todo (i + xs.length) (xs.reverse ++ done) (some (i + xs.length)) false
  | [], todo, i, done, _ => by simp
  | c :: xs, todo, i, done, h => by
    have hc : (c == 32 || c == 9 || c == 13) = true := by
      rcases h c (List.mem_cons_self _ _) with h1 | h1 | h1 <;> subst h1 <;> rfl
    rw [List.cons_append, scan]
    simp only [Bool.false_and, Bool.false_eq_true, if_false, hc, if_true, Option.isNone_some,
      beq_self_eq_true]
    rw [scan_ws_after xs todo (i + 1) (c :: done) (fun x hx => h x (List.mem_cons_of_mem _ hx))]
    simp only [List.length_cons, List.reverse_cons, List.append_assoc, List.singleton_append]
    have : i + 1 + xs.length = i + (xs.length + 1) := by omega
    rw [this]

/-- The bytes of a value are passed unchanged. -/
theorem scan_value_bytes : ∀ (xs todo : List Nat) (i : Nat) (done : List Nat) (v : Nat),
    (∀ c ∈ xs, c ≠ 32 ∧ c ≠ 9 ∧ c ≠ 13 ∧ c ≠ 35 ∧ c ≠ 10) →
    scan (xs ++ todo) i done (some v) false
      = scan todo (i + xs.length) (xs.reverse ++ done) (some v) false
  | [], todo, i, done, v, _ => by simp
  | c :: xs, todo, i, done, v, h => by
    obtain ⟨h1, h2, h3, h5, h6⟩ := h c (List.mem_cons_self _ _)
    have hb1 : (c == 32 || c == 9 || c == 13) = false := by simp [h1, h2, h3]
    have hb3 : (c == 35 || c == 10) = false := by simp [h5, h6]
    rw [List.cons_append, scan]
    simp only [Bool.false_and, Bool.false_eq_true, if_false, hb1, hb3, Option.isNone_some,
      Bool.and_false]
    rw [scan_value_bytes xs todo (i + 1) (c :: done) v
      (fun x hx => h x (List.mem_cons_of_mem _ hx))]
    simp only [List.length_cons, List.reverse_cons, List.append_assoc, List.singleton_append]
    congr 1
    omega

/-- An empty line is found at index 0. -/
theorem scan_blank (rest : List Nat) :
    scan (10 :: rest) 0 [] none false = ScanOut.found (0 :: rest) 0 none false := by
  simp [scan]

/-- The `'#'` that starts a comment line is found at index 0 and sets `comment`. -/
theorem scan_comment_start (rest : List Nat) :
    scan (35 :: rest) 0 [] none false = ScanOut.found (0 :: rest) 0 none true := by
  simp [scan]

/-- The rest of a comment line is passed up to its `'\n'`, which clears `comment`. -/
theorem scan_comment_end (text rest : List Nat) (h : ∀ c ∈ text, c ≠ 10) :
    scan (text ++ 10 :: rest) 0 [] none true
      = ScanOut.found (text ++ 0 :: rest) text.length none false := by
  rw [scan_comment_bytes text _ 0 [] none h, scan]
  simp

/-- The scan of a line `key ws1 = ws2 value \n`: the whitespace in front of
`'='` and the `'='` are overwritten with NUL, `value` points behind the
whitespace that follows `'='`, and the terminator is found behind the value. -/
theorem scan_item (key ws1 ws2 value rest : List Nat)
    (hk : ∀ c ∈ key, c ≠ 32 ∧ c ≠ 9 ∧ c ≠ 13 ∧ c ≠ 61 ∧ c ≠ 35 ∧ c ≠ 10)
    (h1 : ∀ c ∈ ws1, c = 32 ∨ c = 9 ∨ c = 13) (h2 : ∀ c ∈ ws2, c = 32 ∨ c = 9 ∨ c = 13)
    (hv : ∀ c ∈ value, c ≠ 32 ∧ c ≠ 9 ∧ c ≠ 13 ∧ c ≠ 35 ∧ c ≠ 10) :
    scan (key ++ (ws1 ++ 61 :: (ws2 ++ (value ++ 10 :: rest)))) 0 [] none false
      = ScanOut.found
          (key ++ (List.replicate ws1.length 0 ++ 0 :: (ws2 ++ (value ++ 0 :: rest))))
          (key.length + ws1.length + 1 + ws2.length + value.length)
          (some (key.length + ws1.length + 1 + ws2.length)) false := by
  rw [scan_key_bytes key _ 0 [] hk, scan_ws_before ws1 _ _ _ h1, scan]
  simp only [Bool.false_and, Bool.false_eq_true, if_false, Option.isNone_none, Bool.and_true]
  have e1 : ((61 : Nat) == 32 || (61 : Nat) == 9 || (61 : Nat) == 13) = false := by decide
  have e2 : ((61 : Nat) == 61) = true := by decide
  rw [e1, e2]
  simp only [Bool.false_eq_true, if_false, if_true]
  rw [scan_ws_after ws2 _ _ _ h2, scan_value_bytes value _ _ _ _ hv, scan]
  have e3 : ((10 : Nat) == 32 || (10 : Nat) == 9 || (10 : Nat) == 13) = false := by decide
  have e4 : ((10 : Nat) == 61) = false := by decide
  have e5 : ((10 : Nat) == 35 || (10 : Nat) == 10) = true := by decide
  have e6 : ((10 : Nat) == 35) = false := by decide
  simp only [Bool.false_and, Bool.false_eq_true, if_false, e3, e4, e5, e6, if_true]
  simp only [Nat.zero_add, List.reverse_append, List.reverse_reverse, List.reverse_cons,
    List.reverse_nil, List.nil_append, List.reverse_replicate, List.append_assoc,
    List.singleton_append, List.append_nil, List.cons_append]
  rw [if_pos (by decide)]

/-- The C string in front of a NUL. -/
theorem takeWhile_nul (xs rest : List Nat) (h : ∀ c ∈ xs, c ≠ 0) :
    (xs ++ 0 :: rest).takeWhile (fun c => c != 0) = xs := by
  induction xs with
  | nil => simp
  | cons x xs ih =>
    have hx : x ≠ 0 := h x (List.mem_cons_self _ _)
    simp only [List.cons_append, List.takeWhile_cons, bne_iff_ne, ne_eq, hx, not_false_eq_true,
      if_true, List.cons.injEq, true_and]
    exact ih (fun c hc => h c (List.mem_cons_of_mem _ hc))

/-- The C string that starts behind `pre` and ends at the next NUL. -/
theorem cstr_at (pre xs rest : List Nat) (h : ∀ c ∈ xs, c ≠ 0) :
    cstr (pre ++ (xs ++ 0 :: rest)) pre.length = xs := by
  unfold cstr
  rw [List.drop_left, takeWhile_nul xs rest h]

/-- Strings that agree after `tolower` compare equal. -/
theorem strcasecmp_eq_zero : ∀ (a b : List Nat), a.map tolower = b.map tolower →
    strcasecmp a b = 0
  | [], [], _ => by simp [strcasecmp]
  | [], _ :: _, h => by simp at h
  | _ :: _, [], h => by simp at h
  | a :: as, b :: bs, h => by
    simp only [List.map_cons, List.cons.injEq] at h
    rw [strcasecmp, if_pos h.1]
    exact strcasecmp_eq_zero as bs h.2

/-- Strings whose first bytes differ after `tolower` compare unequal. -/
theorem strcasecmp_ne_zero (a b : Nat) (as bs : List Nat) (h : tolower a ≠ tolower b) :
    strcasecmp (a :: as) (b :: bs) ≠ 0 := by
  rw [strcasecmp, if_neg h]
  omega

/-- A byte that `tolower` maps to a lower-case letter is a letter. -/
theorem letters_plain (key name : List Nat) (hname : ∀ x ∈ name, 97 ≤ x ∧ x ≤ 122)
    (h : key.map tolower = name) :
    ∀ c ∈ key, c ≠ 0 ∧ c ≠ 32 ∧ c ≠ 9 ∧ c ≠ 13 ∧ c ≠ 61 ∧ c ≠ 35 ∧ c ≠ 10 := by
  intro c hc
  have hm : tolower c ∈ name := h ▸ List.mem_map_of_mem _ hc
  have hb := hname _ hm
  unfold tolower at hb
  split_ifs at hb <;> omega

/-- The function `strtoul` on a non-empty string of digits below 2^64. -/
theorem strtoul_digits (ds : List Nat) (hne : ds ≠ []) (hd : ∀ c ∈ ds, isdigit c = true)
    (hv : spec_decimal ds < 2 ^ 64) :
    strtoul ds = { val := spec_decimal ds, endOff := ds.length, errno := false } := by
  obtain ⟨d, ds1, rfl⟩ := List.exists_cons_of_ne_nil hne
  have hd0 := hd d (List.mem_cons_self _ _)
  simp only [isdigit, Bool.and_eq_true, decide_eq_true_eq] at hd0
  have hsp : isspace d = false := by
    simp only [isspace, Bool.or_eq_false_iff, beq_eq_false_iff_ne, ne_eq, Bool.and_eq_false_iff,
      decide_eq_false_iff_not]
    omega
  have htw : (d :: ds1).takeWhile isdigit = d :: ds1 :=
    List.takeWhile_eq_self_iff.mpr hd
  have h45 : (some d == some 45) = false := by
    simp only [beq_eq_false_iff_ne, ne_eq, Option.some.injEq]; omega
  have h43 : (some d == some 43) = false := by
    simp only [beq_eq_false_iff_ne, ne_eq, Option.some.injEq]; omega
  unfold strtoul
  simp only [List.takeWhile_cons, hsp, Bool.false_eq_true, if_false, List.length_nil,
    List.drop_zero, List.head?_cons, h45, h43, Bool.or_self, htw]
  unfold spec_decimal at hv ⊢
  rw [if_neg (by simp), if_neg (by omega)]
  simp

/-- A run of NULs in front of a NUL is a NUL in front of the run. -/
theorem replicate_nul_cons (n : Nat) (ys : List Nat) :
    List.replicate n 0 ++ 0 :: ys = 0 :: (List.replicate n 0 ++ ys) := by
  induction n with
  | zero => simp
  | succ n ih => simp only [List.replicate_succ, List.cons_append, ih]

/-- The conversion to `int` keeps a value below 2^31. -/
theorem toInt32_small (v : Nat) (h : v < 2 ^ 31) : toInt32 v = (v : Int) := by
  unfold toInt32
  have h1 : v % 2 ^ 32 = v := Nat.mod_eq_of_lt (by omega)
  rw [h1, if_pos h]

/-- The interpretation of a well-formed `key = value` line, on the buffer the
scan leaves, does what the specification says of the line. -/
theorem interpret_item (lib : Lib) (key ws1 ws2 value rest : List Nat) (cfg : oath_config)
    (hwf : well_formed_line lib (ConfigLine.item key ws1 ws2 value)) :
    interpret lib (key ++ (List.replicate ws1.length 0 ++ 0 :: (ws2 ++ (value ++ 0 :: rest))))
        (some (key.length + ws1.length + 1 + ws2.length)) cfg
      = Except.ok (spec_apply lib cfg (ConfigLine.item key ws1 ws2 value)) := by
  obtain ⟨-, -, hv, hcase⟩ := hwf
  have hv0 : ∀ c ∈ value, c ≠ 0 := fun c hc => (hv c hc).1
  have hval : cstr (key ++ (List.replicate ws1.length 0 ++ 0 :: (ws2 ++ (value ++ 0 :: rest))))
      (key.length + ws1.length + 1 + ws2.length) = value := by
    have hl : (key ++ (List.replicate ws1.length 0 ++ 0 :: ws2)).length
        = key.length + ws1.length + 1 + ws2.length := by
      simp only [List.length_append, List.length_replicate, List.length_cons]; omega
    have he : key ++ (List.replicate ws1.length 0 ++ 0 :: (ws2 ++ (value ++ 0 :: rest)))
        = (key ++ (List.replicate ws1.length 0 ++ 0 :: ws2)) ++ (value ++ 0 :: rest) := by
      simp only [List.append_assoc, List.cons_append]
    rw [he, ← hl, cstr_at _ value rest hv0]
  have hkey : (∀ c ∈ key, c ≠ 0) →
      cstr (key ++ (List.replicate ws1.length 0 ++ 0 :: (ws2 ++ (value ++ 0 :: rest)))) 0
        = key := by
    intro hk0
    have he : List.replicate ws1.length 0 ++ 0 :: (ws2 ++ (value ++ 0 :: rest))
        = 0 :: (List.replicate ws1.length 0 ++ (ws2 ++ (value ++ 0 :: rest))) := by
      exact replicate_nul_cons _ _
    have h := cstr_at [] key (List.replicate ws1.length 0 ++ (ws2 ++ (value ++ 0 :: rest))) hk0
    rw [he]
    simpa using h
  have hlow : ∀ name : List Nat, (∀ x ∈ name, 97 ≤ x ∧ x ≤ 122) → key.map tolower = name →
      ∀ c ∈ key, c ≠ 0 := fun name hn h c hc => (letters_plain key name hn h c hc).1
  unfold interpret
  simp only [hval]
  rcases hcase with ⟨hk, hvt⟩ | ⟨hk, hdec⟩ | ⟨hk, hne, hdig, hlt⟩
  · rw [hkey (hlow _ (by decide) hk)]
    have e1 : strcasecmp key (str "type") = 0 := strcasecmp_eq_zero _ _ (by rw [hk]; decide)
    have e2 : strcasecmp value (str "TOTP") = 0 := strcasecmp_eq_zero _ _ (by rw [hvt]; decide)
    rw [if_pos e1, if_pos e2]
    simp only [spec_apply]
    rw [if_pos hk]
  · rw [hkey (hlow _ (by decide) hk)]
    obtain ⟨k, ks, rfl⟩ : ∃ k ks, key = k :: ks := by
      cases key with
      | nil => exact absurd hk (by decide)
      | cons k ks => exact ⟨k, ks, rfl⟩
    have hk1 : tolower k = 115 := by
      have := congrArg List.head? hk
      simpa [str] using this
    have e1 : strcasecmp (k :: ks) (str "type") ≠ 0 :=
      strcasecmp_ne_zero k 116 ks (str "ype") (by rw [hk1]; decide)
    have e2 : strcasecmp (k :: ks) (str "secret") = 0 :=
      strcasecmp_eq_zero _ _ (by rw [hk]; decide)
    have n1 : ¬ (List.map tolower (k :: ks) = str "type") := by rw [hk]; decide
    rw [if_neg e1, if_pos e2]
    simp only [spec_apply]
    rw [if_neg n1, if_pos hk]
    obtain ⟨bs, hbs⟩ := Option.isSome_iff_exists.mp hdec
    simp only [hbs]
  · rw [hkey (hlow _ (by decide) hk)]
    obtain ⟨k, ks, rfl⟩ : ∃ k ks, key = k :: ks := by
      cases key with
      | nil => exact absurd hk (by decide)
      | cons k ks => exact ⟨k, ks, rfl⟩
    have hk1 : tolower k = 100 := by
      have := congrArg List.head? hk
      simpa [str] using this
    have e1 : strcasecmp (k :: ks) (str "type") ≠ 0 :=
      strcasecmp_ne_zero k 116 ks (str "ype") (by rw [hk1]; decide)
    have e2 : strcasecmp (k :: ks) (str "secret") ≠ 0 :=
      strcasecmp_ne_zero k 115 ks (str "ecret") (by rw [hk1]; decide)
    have e3 : strcasecmp (k :: ks) (str "digits") = 0 :=
      strcasecmp_eq_zero _ _ (by rw [hk]; decide)
    have n1 : ¬ (List.map tolower (k :: ks) = str "type") := by rw [hk]; decide
    have n2 : ¬ (List.map tolower (k :: ks) = str "secret") := by rw [hk]; decide
    rw [if_neg e1, if_neg e2, if_pos e3]
    simp only [spec_apply]
    rw [if_neg n1, if_neg n2, if_pos hk]
    simp only [strtoul_digits value hne hdig (by omega), toInt32_small _ hlt,
      List.getD_eq_getElem?_getD, List.getElem?_eq_none (le_refl _), Option.getD_none,
      bne_self_eq_false, Bool.or_self, Bool.false_eq_true, if_false]

/-- One round of the inner loop: when the scan of the bytes `line ++ rest` in
front of `pos` finds a terminator at the end of `line` and the interpretation
succeeds, the loop goes on with `rest` moved to the start of the buffer. -/
theorem scan_lines_step (lib : Lib) (fuel : Nat) (buf : List Nat) (pos : Nat)
    (line head rest tail hd : List Nat) (i : Nat) (comment c1 : Bool) (value : Option Nat)
    (cfg cfg1 : oath_config) (hbuf : buf = line ++ (rest ++ tail))
    (hpos : pos = line.length + rest.length)
    (hs : scan (line ++ rest) 0 [] none comment = ScanOut.found hd i value c1)
    (hhd : hd = head ++ 0 :: rest) (hi : i = head.length) (hlen : line.length = head.length + 1)
    (hint : interpret lib (head ++ 0 :: (rest ++ tail)) value cfg = Except.ok cfg1) :
    ∃ tail1, scan_lines lib (fuel + 1)
        { filebuf := buf, pos := pos, comment := comment, config := cfg }
      = scan_lines lib fuel
        { filebuf := rest ++ tail1, pos := rest.length, comment := c1, config := cfg1 } := by
  subst hbuf hpos hhd hi
  have htake : List.take (line.length + rest.length) (line ++ (rest ++ tail)) = line ++ rest := by
    rw [← List.append_assoc, ← List.length_append, List.take_left]
  have hdrop : List.drop (line.length + rest.length) (line ++ (rest ++ tail)) = tail := by
    rw [← List.append_assoc, ← List.length_append, List.drop_left]
  have hfb : (head ++ 0 :: rest) ++ tail = head ++ 0 :: (rest ++ tail) := by
    simp only [List.append_assoc, List.cons_append]
  have hmv : List.take rest.length (List.drop (head.length + 1) (head ++ 0 :: (rest ++ tail)))
      = rest := by
    have : List.drop (head.length + 1) (head ++ 0 :: (rest ++ tail)) = rest ++ tail := by
      have h2 : head ++ 0 :: (rest ++ tail) = (head ++ [0]) ++ (rest ++ tail) := by simp
      have h3 : (head ++ [0]).length = head.length + 1 := by simp
      rw [h2, ← h3, List.drop_left]
    rw [this, List.take_left]
  refine ⟨List.drop rest.length (head ++ 0 :: (rest ++ tail)), ?_⟩
  rw [scan_lines]
  simp only [htake, hdrop, hs, hfb, hint, memmove, List.take_zero, List.nil_append,
    Nat.zero_add]
  have hp : line.length + rest.length - (head.length + 1) = rest.length := by omega
  rw [hp, hmv]

/-- The inner loop on a buffer that holds well-formed lines in front of `pos`:
it interprets every line, in order, and ends with `pos = 0`. -/
theorem scan_lines_file (lib : Lib) : ∀ (lines : List ConfigLine) (fuel : Nat)
    (tail : List Nat) (cfg : oath_config), (∀ l ∈ lines, well_formed_line lib l) →
    (file_bytes lines).length < fuel →
    ∃ buf1, scan_lines lib fuel
        { filebuf := file_bytes lines ++ tail, pos := (file_bytes lines).length,
          comment := false, config := cfg }
      = some (LinesOut.done { filebuf := buf1, pos := 0, comment := false,
                              config := lines.foldl (spec_apply lib) cfg }) := by
  intro lines
  induction lines with
  | nil =>
    intro fuel tail cfg _ hf
    obtain ⟨f, rfl⟩ : ∃ f, fuel = f + 1 := ⟨fuel - 1, by omega⟩
    exact ⟨tail, by simp [scan_lines, file_bytes, scan]⟩
  | cons l ls ih =>
    intro fuel tail cfg hwf hf
    have hwl := hwf l (List.mem_cons_self _ _)
    have hwls : ∀ x ∈ ls, well_formed_line lib x := fun x hx => hwf x (List.mem_cons_of_mem _ hx)
    simp only [List.foldl_cons]
    cases l with
    | blank =>
      simp only [file_bytes, line_bytes, List.length_append, List.length_cons,
        List.length_nil] at hf
      obtain ⟨f, rfl⟩ : ∃ f, fuel = f + 1 := ⟨fuel - 1, by omega⟩
      obtain ⟨t1, h1⟩ := scan_lines_step lib f (file_bytes (ConfigLine.blank :: ls) ++ tail)
        (file_bytes (ConfigLine.blank :: ls)).length [10] [] (file_bytes ls) tail _ _ false
        false none cfg cfg (by simp [file_bytes, line_bytes]) (by simp [file_bytes, line_bytes]; omega)
        (scan_blank _) (by simp) rfl rfl (by simp [interpret])
      obtain ⟨buf1, h2⟩ := ih f t1 cfg hwls (by omega)
      exact ⟨buf1, by rw [h1, h2]; simp [spec_apply]⟩
    | comment text =>
      simp only [file_bytes, line_bytes, List.length_append, List.length_cons,
        List.length_nil] at hf
      obtain ⟨f, rfl⟩ : ∃ f, fuel = f + 2 := ⟨fuel - 2, by omega⟩
      obtain ⟨t1, h1⟩ := scan_lines_step lib (f + 1)
        (file_bytes (ConfigLine.comment text :: ls) ++ tail)
        (file_bytes (ConfigLine.comment text :: ls)).length [35] []
        (text ++ 10 :: file_bytes ls) tail _ _ false
        true none cfg cfg (by simp [file_bytes, line_bytes])
        (by simp [file_bytes, line_bytes]; omega)
        (scan_comment_start _) (by simp) rfl rfl (by simp [interpret])
      obtain ⟨t2, h2⟩ := scan_lines_step lib f ((text ++ 10 :: file_bytes ls) ++ t1)
        (text ++ 10 :: file_bytes ls).length (text ++ [10]) text (file_bytes ls) t1 _ _ true
        false none cfg cfg (by simp) (by simp; omega)
        (by
          have := scan_comment_end text (file_bytes ls) hwl
          simpa using this)
        rfl rfl (by simp) (by simp [interpret])
      obtain ⟨buf1, h3⟩ := ih f t2 cfg hwls (by omega)
      exact ⟨buf1, by rw [h1, h2, h3]; simp [spec_apply]⟩
    | item key ws1 ws2 value =>
      simp only [file_bytes, line_bytes, List.length_append, List.length_cons,
        List.length_nil] at hf
      obtain ⟨f, rfl⟩ : ∃ f, fuel = f + 1 := ⟨fuel - 1, by omega⟩
      have hwl2 := hwl
      obtain ⟨hw1, hw2, hv, hcase⟩ := hwl2
      have hk : ∀ c ∈ key, c ≠ 32 ∧ c ≠ 9 ∧ c ≠ 13 ∧ c ≠ 61 ∧ c ≠ 35 ∧ c ≠ 10 := by
        intro c hc
        have hname : ∃ name : List Nat, (∀ x ∈ name, 97 ≤ x ∧ x ≤ 122) ∧
            key.map tolower = name := by
          rcases hcase with ⟨h, -⟩ | ⟨h, -⟩ | ⟨h, -⟩
          · exact ⟨_, by decide, h⟩
          · exact ⟨_, by decide, h⟩
          · exact ⟨_, by decide, h⟩
        obtain ⟨name, hn, he⟩ := hname
        exact (letters_plain key name hn he c hc).2
      have hv2 : ∀ c ∈ value, c ≠ 32 ∧ c ≠ 9 ∧ c ≠ 13 ∧ c ≠ 35 ∧ c ≠ 10 := by
        intro c hc
        obtain ⟨-, a, b, c1, d, e⟩ := hv c hc
        exact ⟨b, c1, d, e, a⟩
      obtain ⟨t1, h1⟩ := scan_lines_step lib f
        (file_bytes (ConfigLine.item key ws1 ws2 value :: ls) ++ tail)
        (file_bytes (ConfigLine.item key ws1 ws2 value :: ls)).length
        (key ++ (ws1 ++ 61 :: (ws2 ++ (value ++ [10]))))
        (key ++ (List.replicate ws1.length 0 ++ 0 :: (ws2 ++ value)))
        (file_bytes ls) tail _ _ false false _ cfg
        (spec_apply lib cfg (ConfigLine.item key ws1 ws2 value))
        (by simp [file_bytes, line_bytes]) (by simp [file_bytes, line_bytes]; omega)
        (by
          have := scan_item key ws1 ws2 value (file_bytes ls) hk hw1 hw2 hv2
          simpa using this)
        (by simp) (by simp; omega) (by simp; omega)
        (by
          have := interpret_item lib key ws1 ws2 value (file_bytes ls ++ tail) cfg hwl
          simpa using this)
      obtain ⟨buf1, h2⟩ := ih f t1 _ hwls (by omega)
      exact ⟨buf1, by rw [h1, h2]⟩

/-- A line has at least its terminator. -/
theorem line_bytes_pos (l : ConfigLine) : 0 < (line_bytes l).length := by
  cases l <;> simp [line_bytes]

/-- A file of at least one line is not empty. -/
theorem file_bytes_pos (ls : List ConfigLine) (h : ls ≠ []) : 0 < (file_bytes ls).length := by
  obtain ⟨l, ls1, rfl⟩ := List.exists_cons_of_ne_nil h
  have := line_bytes_pos l
  simp only [file_bytes, List.length_append]
  omega

/-- The outer loop on a descriptor whose every `read` delivers whole well-formed
lines, at most 1023 bytes of them: all lines are interpreted in order, and the
check of lines 141-146 decides the result. -/
theorem read_loop_chunks (lib : Lib) : ∀ (chunks : List (List ConfigLine)) (fuel : Nat)
    (buf : List Nat) (cfg : oath_config),
    (∀ ls ∈ chunks, ls ≠ [] ∧ (file_bytes ls).length ≤ 1023 ∧
      ∀ l ∈ ls, well_formed_line lib l) →
    srcBytes (chunks.map (fun ls => RdEv.data (file_bytes ls))) < fuel →
    read_loop lib fuel (chunks.map (fun ls => RdEv.data (file_bytes ls)))
        { filebuf := buf, pos := 0, comment := false, config := cfg }
      = some (if ((chunks.flatten.foldl (spec_apply lib) cfg).secret.isNone ||
                  (chunks.flatten.foldl (spec_apply lib) cfg).secret_length == 0) = true then
                { ret := 0, config := chunks.flatten.foldl (spec_apply lib) cfg,
                  stderr := [Diag.no_secret_defined] }
              else { ret := 1, config := chunks.flatten.foldl (spec_apply lib) cfg,
                     stderr := [] }) := by
  intro chunks
  induction chunks with
  | nil =>
    intro fuel buf cfg _ hf
    obtain ⟨f, rfl⟩ : ∃ f, fuel = f + 1 := ⟨fuel - 1, by omega⟩
    simp only [List.map_nil, List.flatten_nil, List.foldl_nil]
    rw [read_loop]
    simp only [read, Nat.zero_add, Int.toNat_zero, lt_self_iff_false, if_false, if_true,
      gt_iff_lt]
    rw [scan_lines]
    simp only [List.take_zero, scan, List.reverse_nil, List.nil_append, List.drop_zero]
    split_ifs <;> rfl
  | cons ls chunks ih =>
    intro fuel buf cfg hwf hf
    obtain ⟨hne, hlen, hwl⟩ := hwf ls (List.mem_cons_self _ _)
    have hpos := file_bytes_pos ls hne
    simp only [List.map_cons, srcBytes] at hf
    obtain ⟨f, rfl⟩ : ∃ f, fuel = f + 1 := ⟨fuel - 1, by omega⟩
    simp only [List.map_cons, List.flatten_cons, List.foldl_append]
    rw [read_loop]
    simp only [Nat.zero_add]
    rw [read_chunk_whole (file_bytes ls) _ (1024 - 1) (by omega) (by omega)]
    simp only [Int.toNat_ofNat]
    rw [if_neg (by omega), if_neg (by omega)]
    have hw : writeAt buf 0 (file_bytes ls)
        = file_bytes ls ++ List.drop (file_bytes ls).length buf := by
      simp [writeAt]
    obtain ⟨buf1, hsl⟩ := scan_lines_file lib ls ((file_bytes ls).length + 1)
      (List.drop (file_bytes ls).length buf) cfg hwl (by omega)
    rw [hw, hsl]
    simp only
    rw [if_pos (by omega)]
    exact ih f buf1 _ (fun x hx => hwf x (List.mem_cons_of_mem _ hx)) (by omega)

/-- The specification's lines keep `secret_length` the length of the secret. -/
theorem spec_apply_length (lib : Lib) (c : oath_config) (l : ConfigLine)
    (h : c.secret_length = (c.secret.getD []).length) :
    (spec_apply lib c l).secret_length = ((spec_apply lib c l).secret.getD []).length := by
  cases l with
  | blank => exact h
  | comment text => exact h
  | item key ws1 ws2 value =>
    simp only [spec_apply]
    split_ifs
    · exact h
    · split
      · rfl
      · exact h
    · exact h
    · exact h

/-- After any lines, `secret_length` is the length of the secret. -/
theorem foldl_spec_apply_length (lib : Lib) : ∀ (lines : List ConfigLine) (c : oath_config),
    c.secret_length = (c.secret.getD []).length →
    (lines.foldl (spec_apply lib) c).secret_length
      = ((lines.foldl (spec_apply lib) c).secret.getD []).length
  | [], _, h => h
  | l :: ls, c, h => by
    simp only [List.foldl_cons]
    exact foldl_spec_apply_length lib ls _ (spec_apply_length lib c l h)

/-- C2 (amended): a configuration file made of well-formed lines (every line
ends with `'\n'` and is empty, a `'#'` comment, or `key = value` with the key
`type`, `secret` or `digits` at the start of the line, in any letter case; a
value without whitespace or `'#'`; TOTP as the type; valid base32 as the
secret; a decimal number below 2^31 as the digits), whose every `read`
delivers whole lines and at most 1023 bytes, and whose last secret line
decodes to a non-empty secret, makes `read_config` return 1 with the
configuration the lines denote: type TOTP when a type line is present, the
secret and its length from the decoding of the secret value, digits from the
digits value, or 6 without a digits line. -/
theorem read_config_well_formed (lib : Lib) (chunks : List (List ConfigLine))
    (hwf : ∀ ls ∈ chunks, ls ≠ [] ∧ (file_bytes ls).length ≤ 1023 ∧
      ∀ l ∈ ls, well_formed_line lib l)
    (hsec : ∃ bs, (spec_config lib chunks.flatten).secret = some bs ∧ bs ≠ []) :
    read_config lib (some (chunks.map (fun ls => RdEv.data (file_bytes ls)))) config_zero
      = some { ret := 1, config := spec_config lib chunks.flatten, stderr := [] } := by
  obtain ⟨bs, hb, hne⟩ := hsec
  have hl := foldl_spec_apply_length lib chunks.flatten { config_zero with digits := 6 } rfl
  unfold spec_config at hb ⊢
  unfold read_config
  simp only
  rw [read_loop_chunks lib chunks _ _ _ hwf (Nat.lt_succ_self _)]
  have hlen : (chunks.flatten.foldl (spec_apply lib) { config_zero with digits := 6 }).secret_length
      ≠ 0 := by
    rw [hl, hb]
    simpa using hne
  rw [if_neg]
  simp only [hb, Option.isNone_some, Bool.false_or, beq_iff_eq]
  exact hlen

/-- C2, at the example file of the specification, delivered by one `read`. -/
theorem read_config_well_formed_witness :
    (∀ ls ∈ [example_lines], ls ≠ [] ∧ (file_bytes ls).length ≤ 1023 ∧
      ∀ l ∈ ls, well_formed_line demo_lib l) ∧
    (∃ bs, (spec_config demo_lib [example_lines].flatten).secret = some bs ∧ bs ≠ []) ∧
    file_bytes example_lines = example_config ∧
    spec_config demo_lib [example_lines].flatten
      = { type := OATH_TYPE_TOTP, secret := some example_secret, secret_length := 10,
          digits := 6 } ∧
    read_config demo_lib (some ([example_lines].map (fun ls => RdEv.data (file_bytes ls))))
        config_zero
      = some { ret := 1, config := spec_config demo_lib [example_lines].flatten,
               stderr := [] } :=
  ⟨by decide!, ⟨example_secret, by decide!, by decide⟩, by decide!, by decide!,
    read_config_well_formed demo_lib [example_lines] (by decide!)
      ⟨example_secret, by decide!, by decide⟩⟩

/-- C2, as stated, fails for large digits values: the decimal integer 2^64 makes
`strtoul` set `ERANGE` and `read_config` return 0, and the decimal integer 2^32
is accepted but `digits`, an `int`, becomes 0.  It also fails for a well-formed
file that `read` cannot deliver in whole lines: of the 1026 bytes of a comment
line of 1000 bytes and a secret line, the first `read` takes 1023, the secret
line straddles two reads and is skipped, and `read_config` returns 0. -/
theorem large_digits_value_not_kept :
    (read_config demo_lib
        (some [RdEv.data (secret_line ++ str "digits = 18446744073709551616\n")])
        config_zero).map (fun o => (o.ret, o.stderr))
      = some (0, [Diag.cant_parse_number (str "18446744073709551616")]) ∧
    (read_config demo_lib (some [RdEv.data (secret_line ++ str "digits = 4294967296\n")])
        config_zero).map (fun o => (o.ret, o.config.digits)) = some (1, 0) ∧
    (read_config demo_lib
        (some [RdEv.data (file_bytes [ConfigLine.comment (List.replicate 998 120),
          ConfigLine.item (str "secret") [32] [32] (str "JBSWY3DPEHPK3PXP")])])
        config_zero).map (fun o => (o.ret, o.stderr))
      = some (0, [Diag.no_secret_defined]) ∧
    (file_bytes [ConfigLine.comment (List.replicate 998 120),
      ConfigLine.item (str "secret") [32] [32] (str "JBSWY3DPEHPK3PXP")]).length = 1026 ∧
    (∀ l ∈ [ConfigLine.comment (List.replicate 998 120),
      ConfigLine.item (str "secret") [32] [32] (str "JBSWY3DPEHPK3PXP")],
        well_formed_line demo_lib l) := by
  decide!

/-! ## The configuration after a successful parse -/

/-- C8 (defect of the code): end of file does not act as a line terminator.
On a `read` that returns 0 the code stores `'\n'` at `filebuf[pos]` but leaves
`pos` as it is, so the scan `for (i = 0; i < pos; i++)` never meets that byte:
the unterminated last line `secret = JBSWY3DPEHPK3PXP` is not interpreted and
`read_config` fails with "No secret defined", while the same content followed
by `'\n'` is accepted with the secret set. -/
theorem eof_does_not_terminate_last_line :
    read_config demo_lib (some [RdEv.data (str "type = TOTP\nsecret = JBSWY3DPEHPK3PXP")])
        config_zero
      = some { ret := 0,
               config := { type := 1, secret := none, secret_length := 0, digits := 6 },
               stderr := [Diag.no_secret_defined] } ∧
    read_config demo_lib (some [RdEv.data (str "type = TOTP\nsecret = JBSWY3DPEHPK3PXP\n")])
        config_zero
      = some { ret := 1,
               config := { type := 1, secret := some example_secret, secret_length := 10,
                           digits := 6 },
               stderr := [] } := by
  decide!

/-- C9 (defect of the code): an oversized line is not fatal.  After a valid
secret line, a run of 1024 bytes `a` without terminator fills the staging
buffer; the next `read` is asked for 0 bytes, returns 0, and the code takes
that for end of file: `read_config` returns 1, and the line `foo = bar` that
follows the oversized line is never looked at. -/
theorem oversized_line_is_accepted :
    read_config demo_lib
        (some [RdEv.data (secret_line ++ List.replicate 1024 97 ++ str "\nfoo = bar\n")])
        config_zero
      = some { ret := 1,
               config := { type := 0, secret := some example_secret, secret_length := 10,
                           digits := 6 },
               stderr := [] } := by
  decide!

/-- C10 (defect of the code): the result of `read_config` depends on how `read`
splits the file.  A scan that finds no terminator has already overwritten the
`'='` of the line with NUL, so the rescan after the next `read` sees no value
and skips the line.  The 26 bytes `secret = JBSWY3DPEHPK3PXP\n` are accepted
when one `read` delivers them and rejected when two do; and a well-formed file
of 1026 bytes (a comment line of 1000 bytes, then the secret line), which
`read` can only deliver in pieces, is rejected, while the same bytes delivered
line by line are accepted. -/
theorem result_depends_on_read_chunks :
    (read_config demo_lib (some [RdEv.data secret_line]) config_zero).map (fun o => o.ret)
      = some 1 ∧
    (read_config demo_lib
        (some [RdEv.data (str "secret = JB"), RdEv.data (str "SWY3DPEHPK3PXP\n")])
        config_zero).map (fun o => (o.ret, o.stderr))
      = some (0, [Diag.no_secret_defined]) ∧
    (read_config demo_lib
        (some [RdEv.data (35 :: List.replicate 998 120 ++ [10] ++ secret_line)])
        config_zero).map (fun o => (o.ret, o.stderr))
      = some (0, [Diag.no_secret_defined]) ∧
    (read_config demo_lib
        (some [RdEv.data (35 :: List.replicate 998 120 ++ [10]), RdEv.data secret_line])
        config_zero).map (fun o => o.ret)
      = some 1 := by
  decide!

/-- C4 (defect of the code): whitespace in front of the key or behind the value
changes the parse.  `type=TOTP` followed by a secret line is accepted; with two
blanks in front of `type` the key the code compares is the empty string
("Unknown config item"); with a blank or a CR behind `TOTP` the value the code
compares is `TOTP ` resp. `TOTP\r` ("Unsupported OTP type"). -/
theorem outer_whitespace_changes_parse :
    (read_config demo_lib (some [RdEv.data (str "type=TOTP\n" ++ secret_line)])
        config_zero).map (fun o => (o.ret, o.stderr)) = some (1, []) ∧
    (read_config demo_lib (some [RdEv.data (str "  type = TOTP\n" ++ secret_line)])
        config_zero).map (fun o => (o.ret, o.stderr))
      = some (0, [Diag.unknown_config_item []]) ∧
    (read_config demo_lib (some [RdEv.data (str "type = TOTP \n" ++ secret_line)])
        config_zero).map (fun o => (o.ret, o.stderr))
      = some (0, [Diag.unsupported_otp_type (str "TOTP ")]) ∧
    (read_config demo_lib (some [RdEv.data (str "type = TOTP\r\n" ++ secret_line)])
        config_zero).map (fun o => (o.ret, o.stderr))
      = some (0, [Diag.unsupported_otp_type (str "TOTP\r")]) := by
  decide!

/-- C3 (defect of the code): a `digits` line with an empty value is accepted.
`strtoul` converts nothing, returns 0 and leaves `endptr` at the start of the
value, where the byte is NUL, so the test `*endptr != 0` passes: `read_config`
returns 1 with `digits = 0`.  The two examples of the claim behave as it says
when their line is terminated: `type=TOTP` alone fails with "No secret
defined", `foo=bar` fails with a diagnostic that names `foo`. -/
theorem empty_digits_value_is_accepted :
    read_config demo_lib (some [RdEv.data (secret_line ++ str "digits =\n")]) config_zero
      = some { ret := 1,
               config := { type := 0, secret := some example_secret, secret_length := 10,
                           digits := 0 },
               stderr := [] } ∧
    (read_config demo_lib (some [RdEv.data (str "type=TOTP\n")]) config_zero).map
        (fun o => (o.ret, o.stderr)) = some (0, [Diag.no_secret_defined]) ∧
    (read_config demo_lib (some [RdEv.data (str "foo=bar\n")]) config_zero).map
        (fun o => (o.ret, o.stderr)) = some (0, [Diag.unknown_config_item (str "foo")]) := by
  decide!

/-- C6 (defect of the code): the early exits of Gate mode leave the decoded
secret in memory.  With a valid configuration and standard input at end of
file, `main` exits at line 266 with the secret buffer still holding the
secret; with a configuration whose secret line is followed by an unknown key,
`main` exits at line 257 in the same state.  When the OTP is read and checked
(here: rejected), both buffers are zero at exit. -/
theorem early_exit_leaves_secret :
    ((main demo_lib (demo_env secret_line [])).map (fun o => o.status) = some (some 1) ∧
     (main demo_lib (demo_env secret_line [])).map (fun o => o.secret_mem)
       = some (some example_secret)) ∧
    ((main demo_lib (demo_env (secret_line ++ str "foo = bar\n")
        [RdEv.data (str "287082\n")])).map (fun o => o.status) = some (some 1) ∧
     (main demo_lib (demo_env (secret_line ++ str "foo = bar\n")
        [RdEv.data (str "287082\n")])).map (fun o => o.secret_mem)
       = some (some example_secret)) ∧
    ((main demo_lib (demo_env example_config [RdEv.data (str "000000\n")])).map
        (fun o => o.status) = some (some 1) ∧
     (main demo_lib (demo_env example_config [RdEv.data (str "000000\n")])).map
        (fun o => o.secret_mem) = some (some (List.replicate 10 0)) ∧
     (main demo_lib (demo_env example_config [RdEv.data (str "000000\n")])).map
        (fun o => o.otp_mem) = some (List.replicate 1024 0)) := by
  decide!

end OathExec
